import Mathlib

/-!
Verification of the in-memory metrics collector (`src/app/main.py`).

The store keeps, per label key `(event, service, status)`:
  * `_counts`  : defaultdict(int)           — number of track() calls,
  * `_sum`     : defaultdict(float)         — running sum of supplied values,
  * `_n`       : defaultdict(int)           — number of calls supplying a value,
  * `_min`     : defaultdict(lambda: inf)   — running minimum,
  * `_max`     : defaultdict(lambda: -inf)  — running maximum,
  * `_series`  : defaultdict(lambda: deque(maxlen=series_max)) — recent points.

Defaultdicts are modelled as total functions together with an explicit
insertion-order key list for the two dicts the code iterates (`_counts` in
`snapshot`, `_series` in `series`).  The `math.inf` / `-math.inf` sentinels of
`_min` / `_max` are modelled as `Option ℚ` with `none` standing for the unset
sentinel: for a finite value `v`, `v < inf` always holds, which is exactly the
`minUpd`/`maxUpd` behaviour below, and `snapshot`'s `!= math.inf` test is the
`none` test.  Float values are modelled as rationals.
-/

/-- Label key: the `(event, service or "", status or "")` tuple of the code. -/
structure Key where
  event : String
  service : String
  status : String
deriving DecidableEq, Repr

/-- State of `MetricsStore`.  `countKeys` / `seriesKeys` record dict insertion
order of `_counts` / `_series` (Python dicts iterate in insertion order). -/
structure MetricsStore where
  seriesWindow : ℚ
  seriesMax : ℕ
  countKeys : List Key
  counts : Key → ℕ
  sums : Key → ℚ
  n : Key → ℕ
  minv : Key → Option ℚ
  maxv : Key → Option ℚ
  seriesKeys : List Key
  seriesMap : Key → List (ℚ × ℚ)

/-- `MetricsStore.__init__(series_window=300, series_max=500)`: all
defaultdicts empty (everything at its default). -/
def MetricsStore.init (series_window : ℚ) (series_max : ℕ) : MetricsStore :=
  { seriesWindow := series_window
    seriesMax := series_max
    countKeys := []
    counts := fun _ => 0
    sums := fun _ => 0
    n := fun _ => 0
    minv := fun _ => none
    maxv := fun _ => none
    seriesKeys := []
    seriesMap := fun _ => [] }

/-- `STORE = MetricsStore()` with the default arguments. -/
def MetricsStore.initDefault : MetricsStore := MetricsStore.init 300 500

/-- `if value < self._min[key]: self._min[key] = value`, where the defaultdict
default `math.inf` is `none` (a finite value always beats it). -/
def minUpd (m : Option ℚ) (v : ℚ) : Option ℚ :=
  match m with
  | none => some v
  | some m0 => if v < m0 then some v else some m0

/-- `if value > self._max[key]: self._max[key] = value`, default `-math.inf`
modelled as `none`. -/
def maxUpd (m : Option ℚ) (v : ℚ) : Option ℚ :=
  match m with
  | none => some v
  | some m0 => if m0 < v then some v else some m0

/-- `deque(maxlen=cap).append(x)`: append, evicting from the left so that at
most `cap` elements remain. -/
def appendBounded (cap : ℕ) (dq : List (ℚ × ℚ)) (x : ℚ × ℚ) : List (ℚ × ℚ) :=
  (dq ++ [x]).drop (dq.length + 1 - cap)

/-- `service or ""` / `status or ""`: Python maps both `None` and the falsy
empty string to `""`; on `Option String` this is `getD ""`. -/
def orEmpty (s : Option String) : String := s.getD ""

/-- The label key built at the top of `MetricsStore.track`. -/
def mkKey (event : String) (service status : Option String) : Key :=
  ⟨event, orEmpty service, orEmpty status⟩

/-- `MetricsStore.track(event, value, service, status)`.  The timestamp `ts`
models the `time.time()` call.  Always increments `_counts[key]` (inserting
the key into `_counts` on first use); when a value is present it also updates
`_sum`, `_n`, `_min`, `_max` and appends `(ts, value)` to the bounded series
(inserting the key into `_series` on first use). -/
def MetricsStore.track (s : MetricsStore) (event : String) (value : Option ℚ)
    (service status : Option String) (ts : ℚ) : MetricsStore :=
  let key := mkKey event service status
  let s1 : MetricsStore :=
    { s with
      countKeys := if key ∈ s.countKeys then s.countKeys else s.countKeys ++ [key]
      counts := Function.update s.counts key (s.counts key + 1) }
  match value with
  | none => s1
  | some v =>
    { s1 with
      sums := Function.update s1.sums key (s1.sums key + v)
      n := Function.update s1.n key (s1.n key + 1)
      minv := Function.update s1.minv key (minUpd (s1.minv key) v)
      maxv := Function.update s1.maxv key (maxUpd (s1.maxv key) v)
      seriesKeys := if key ∈ s1.seriesKeys then s1.seriesKeys else s1.seriesKeys ++ [key]
      seriesMap := Function.update s1.seriesMap key
        (appendBounded s1.seriesMax (s1.seriesMap key) (ts, v)) }

/-- One row of `MetricsStore.snapshot()`. -/
structure Row where
  event : String
  service : String
  status : String
  count : ℕ
  samples : ℕ
  avg : Option ℚ
  minv : Option ℚ
  maxv : Option ℚ
deriving DecidableEq, Repr

/-- The row `snapshot` builds for one key: `avg = sum/n if n else None`,
`vmin = _min if _min != inf else None` (our `none` encodes the sentinel), and
likewise for the maximum. -/
def mkRow (s : MetricsStore) (k : Key) : Row :=
  { event := k.event
    service := k.service
    status := k.status
    count := s.counts k
    samples := s.n k
    avg := if s.n k = 0 then none else some (s.sums k / (s.n k : ℚ))
    minv := s.minv k
    maxv := s.maxv k }

/-- `MetricsStore.snapshot()`: one row per key of `_counts`, in dict
(insertion) order. -/
def MetricsStore.snapshot (s : MetricsStore) : List Row :=
  s.countKeys.map (mkRow s)

/-- One `{service, status, points}` entry of `MetricsStore.series()`. -/
structure SeriesEntry where
  service : String
  status : String
  points : List (ℚ × ℚ)
deriving DecidableEq, Repr

/-- `out.setdefault(event, []).append(entry)` on an insertion-ordered dict
modelled as an association list. -/
def addToGroup (out : List (String × List SeriesEntry)) (ev : String)
    (e : SeriesEntry) : List (String × List SeriesEntry) :=
  match out with
  | [] => [(ev, [e])]
  | (ev0, es) :: rest =>
    if ev0 = ev then (ev0, es ++ [e]) :: rest else (ev0, es) :: addToGroup rest ev e

/-- `MetricsStore.series()`: `cutoff = now - self._series_window`; for each key
of `_series` (in insertion order) keep the points with `ts >= cutoff`, and when
any survive, group the `{service, status, points}` entry under the event.  The
wall-clock `time.time()` is the explicit parameter `now`. -/
def MetricsStore.series (s : MetricsStore) (now : ℚ) :
    List (String × List SeriesEntry) :=
  s.seriesKeys.foldl (fun out k =>
    let pts := (s.seriesMap k).filter (fun p => decide (now - s.seriesWindow ≤ p.1))
    if pts.isEmpty then out else addToGroup out k.event ⟨k.service, k.status, pts⟩) []

/-! ### Track-call sequences -/

/-- One call to `MetricsStore.track`, with the `time.time()` value made
explicit. -/
structure TrackCall where
  ts : ℚ
  event : String
  value : Option ℚ
  service : Option String
  status : Option String

/-- The key a call aggregates under. -/
def TrackCall.key (c : TrackCall) : Key := mkKey c.event c.service c.status

/-- Apply a sequence of `track` calls, oldest first. -/
def runCalls (s : MetricsStore) : List TrackCall → MetricsStore
  | [] => s
  | c :: cs => runCalls (s.track c.event c.value c.service c.status c.ts) cs

/-- The calls of a sequence aggregating under key `k`. -/
def callsFor (k : Key) (cs : List TrackCall) : List TrackCall :=
  cs.filter (fun c => decide (c.key = k))

/-- The numeric values supplied for key `k`, in call order. -/
def valuesFor (k : Key) (cs : List TrackCall) : List ℚ :=
  (callsFor k cs).filterMap (·.value)

/-- The `(timestamp, value)` points appended to `k`'s series, in call order. -/
def pointsFor (k : Key) (cs : List TrackCall) : List (ℚ × ℚ) :=
  (callsFor k cs).filterMap (fun c => c.value.map (fun v => (c.ts, v)))

/-! ### Boundary layer: payload validation, route, Prometheus sinks -/

/-- Python `str.isspace()` — the exact set of characters `str.strip()`
removes: `\t` `\n` `\x0b` `\x0c` `\r` (U+0009-U+000D), the separators
U+001C-U+001F, the space U+0020, U+0085 (NEL), U+00A0 (NBSP), and the Unicode
space separators U+1680, U+2000-U+200A, U+2028, U+2029, U+202F, U+205F,
U+3000. -/
def isPySpace (c : Char) : Bool :=
  let n := c.toNat
  (0x09 ≤ n && n ≤ 0x0d) || (0x1c ≤ n && n ≤ 0x20) ||
    n = 0x85 || n = 0xa0 || n = 0x1680 || (0x2000 ≤ n && n ≤ 0x200a) ||
    n = 0x2028 || n = 0x2029 || n = 0x202f || n = 0x205f || n = 0x3000

/-- Python `str.strip()`: drop leading and trailing whitespace characters. -/
def pyStrip (s : String) : String :=
  ⟨((s.data.dropWhile isPySpace).reverse.dropWhile isPySpace).reverse⟩

/-- Raw `/track` request body (`TrackPayload` before validation). -/
structure RawPayload where
  event : String
  value : Option ℚ
  service : Option String
  status : Option String

/-- `TrackPayload.validate_event`: strip, reject when empty, otherwise return
the stripped string. -/
def validate_event (v : String) : Except String String :=
  let v1 := pyStrip v
  if v1 = "" then Except.error "event must be a non-empty string" else Except.ok v1

/-- Pydantic model validation of a `/track` body: replaces `event` by the
validator's return value, or rejects the request. -/
def parsePayload (p : RawPayload) : Except String RawPayload :=
  match validate_event p.event with
  | Except.error e => Except.error e
  | Except.ok ev => Except.ok { p with event := ev }

/-- The two Prometheus sinks: `mc_events_total` (a counter per label triple)
and `mc_event_latency_seconds` (a histogram per label triple, modelled by the
list of values it has observed). -/
structure PromState where
  eventsTotal : Key → ℕ
  latencyObserved : Key → List ℚ

/-- The fresh `CollectorRegistry()`: both metrics at zero / no observations. -/
def PromState.init : PromState := ⟨fun _ => 0, fun _ => []⟩

/-- The whole process state the `/track` route touches: `STORE` and the
Prometheus registry. -/
structure ServerState where
  store : MetricsStore
  prom : PromState

/-- Process start: `STORE = MetricsStore()` and a fresh registry. -/
def ServerState.init : ServerState := ⟨MetricsStore.initDefault, PromState.init⟩

/-- The `/track` route.  Pydantic validation runs first; a validation error is
a client-error response and the handler body never runs.  On success the
handler calls `STORE.track`, increments `EVENT_COUNT` with labels
`(payload.event, payload.service or "", payload.status or "")`, and observes
`payload.value` on `EVENT_LATENCY` when it is present.  The returned `Bool` is
`true` for the success response, `false` for the client error. -/
def handleTrack (st : ServerState) (p : RawPayload) (ts : ℚ) : ServerState × Bool :=
  match parsePayload p with
  | Except.error _ => (st, false)
  | Except.ok q =>
    let key := mkKey q.event q.service q.status
    let store1 := st.store.track q.event q.value q.service q.status ts
    let prom1 : PromState :=
      { eventsTotal := Function.update st.prom.eventsTotal key
          (st.prom.eventsTotal key + 1)
        latencyObserved :=
          match q.value with
          | none => st.prom.latencyObserved
          | some v => Function.update st.prom.latencyObserved key
              (st.prom.latencyObserved key ++ [v]) }
    (⟨store1, prom1⟩, true)

/-- One incoming `/track` request: arrival time and body. -/
structure TrackRequest where
  ts : ℚ
  payload : RawPayload

/-- Serve a sequence of `/track` requests, oldest first. -/
def runRequests (st : ServerState) : List TrackRequest → ServerState
  | [] => st
  | r :: rs => runRequests (handleTrack st r.payload r.ts).1 rs

/-- The numeric values supplied by the valid requests for key `k`, in request
order: the observations `mc_event_latency_seconds{k}` should have made. -/
def validValuesFor (k : Key) (rs : List TrackRequest) : List ℚ :=
  rs.filterMap (fun r =>
    match parsePayload r.payload with
    | Except.error _ => none
    | Except.ok q => if mkKey q.event q.service q.status = k then q.value else none)

/-- The points of `k`'s series surviving the window test of
`MetricsStore.series`: `ts >= cutoff` with `cutoff = now - window`. -/
def windowPts (s : MetricsStore) (now : ℚ) (k : Key) : List (ℚ × ℚ) :=
  (s.seriesMap k).filter (fun p => decide (now - s.seriesWindow ≤ p.1))

/-- The loop body of `MetricsStore.series`. -/
def seriesStep (s : MetricsStore) (now : ℚ) (out : List (String × List SeriesEntry))
    (k : Key) : List (String × List SeriesEntry) :=
  if (windowPts s now k).isEmpty then out
  else addToGroup out k.event ⟨k.service, k.status, windowPts s now k⟩

/-- Flatten the grouped `series()` output into `(event, entry)` pairs. -/
def flattenGroups (out : List (String × List SeriesEntry)) : List (String × SeriesEntry) :=
  out.flatMap (fun g => g.2.map (fun e => (g.1, e)))

/-- Number of valid `/track` requests aggregating under key `k`: what
`mc_events_total{k}` should read. -/
def validCountFor (k : Key) (rs : List TrackRequest) : ℕ :=
  (rs.filter (fun r =>
    match parsePayload r.payload with
    | Except.error _ => false
    | Except.ok q => decide (mkKey q.event q.service q.status = k))).length

/-! ### Per-field behaviour of one `track` call -/

theorem TrackCall.key_def (c : TrackCall) : c.key = mkKey c.event c.service c.status := rfl

theorem track_seriesWindow (s : MetricsStore) (event : String) (value : Option ℚ)
    (service status : Option String) (ts : ℚ) :
    (s.track event value service status ts).seriesWindow = s.seriesWindow := by
  cases value <;> rfl

theorem track_seriesMax (s : MetricsStore) (event : String) (value : Option ℚ)
    (service status : Option String) (ts : ℚ) :
    (s.track event value service status ts).seriesMax = s.seriesMax := by
  cases value <;> rfl

theorem track_counts (s : MetricsStore) (event : String) (value : Option ℚ)
    (service status : Option String) (ts : ℚ) (k : Key) :
    (s.track event value service status ts).counts k =
      if k = mkKey event service status then s.counts (mkKey event service status) + 1
      else s.counts k := by
  cases value <;> simp [MetricsStore.track, Function.update_apply]

theorem track_countKeys (s : MetricsStore) (event : String) (value : Option ℚ)
    (service status : Option String) (ts : ℚ) :
    (s.track event value service status ts).countKeys =
      if mkKey event service status ∈ s.countKeys then s.countKeys
      else s.countKeys ++ [mkKey event service status] := by
  cases value <;> rfl

theorem track_sums_none (s : MetricsStore) (event : String)
    (service status : Option String) (ts : ℚ) (k : Key) :
    (s.track event none service status ts).sums k = s.sums k := rfl

theorem track_sums_some (s : MetricsStore) (event : String) (v : ℚ)
    (service status : Option String) (ts : ℚ) (k : Key) :
    (s.track event (some v) service status ts).sums k =
      if k = mkKey event service status then s.sums (mkKey event service status) + v
      else s.sums k := by
  simp [MetricsStore.track, Function.update_apply]

theorem track_n_none (s : MetricsStore) (event : String)
    (service status : Option String) (ts : ℚ) (k : Key) :
    (s.track event none service status ts).n k = s.n k := rfl

theorem track_n_some (s : MetricsStore) (event : String) (v : ℚ)
    (service status : Option String) (ts : ℚ) (k : Key) :
    (s.track event (some v) service status ts).n k =
      if k = mkKey event service status then s.n (mkKey event service status) + 1
      else s.n k := by
  simp [MetricsStore.track, Function.update_apply]

theorem track_minv_none (s : MetricsStore) (event : String)
    (service status : Option String) (ts : ℚ) (k : Key) :
    (s.track event none service status ts).minv k = s.minv k := rfl

theorem track_minv_some (s : MetricsStore) (event : String) (v : ℚ)
    (service status : Option String) (ts : ℚ) (k : Key) :
    (s.track event (some v) service status ts).minv k =
      if k = mkKey event service status then minUpd (s.minv (mkKey event service status)) v
      else s.minv k := by
  simp [MetricsStore.track, Function.update_apply]

theorem track_maxv_none (s : MetricsStore) (event : String)
    (service status : Option String) (ts : ℚ) (k : Key) :
    (s.track event none service status ts).maxv k = s.maxv k := rfl

theorem track_maxv_some (s : MetricsStore) (event : String) (v : ℚ)
    (service status : Option String) (ts : ℚ) (k : Key) :
    (s.track event (some v) service status ts).maxv k =
      if k = mkKey event service status then maxUpd (s.maxv (mkKey event service status)) v
      else s.maxv k := by
  simp [MetricsStore.track, Function.update_apply]

theorem track_seriesMap_none (s : MetricsStore) (event : String)
    (service status : Option String) (ts : ℚ) (k : Key) :
    (s.track event none service status ts).seriesMap k = s.seriesMap k := rfl

theorem track_seriesMap_some (s : MetricsStore) (event : String) (v : ℚ)
    (service status : Option String) (ts : ℚ) (k : Key) :
    (s.track event (some v) service status ts).seriesMap k =
      if k = mkKey event service status then
        appendBounded s.seriesMax (s.seriesMap (mkKey event service status)) (ts, v)
      else s.seriesMap k := by
  simp [MetricsStore.track, Function.update_apply]

theorem track_seriesKeys_none (s : MetricsStore) (event : String)
    (service status : Option String) (ts : ℚ) :
    (s.track event none service status ts).seriesKeys = s.seriesKeys := rfl

theorem track_seriesKeys_some (s : MetricsStore) (event : String) (v : ℚ)
    (service status : Option String) (ts : ℚ) :
    (s.track event (some v) service status ts).seriesKeys =
      if mkKey event service status ∈ s.seriesKeys then s.seriesKeys
      else s.seriesKeys ++ [mkKey event service status] := by
  simp [MetricsStore.track]

/-! ### Unfolding the per-key projections of a call list -/

theorem callsFor_nil (k : Key) : callsFor k [] = [] := rfl

theorem callsFor_cons (k : Key) (c : TrackCall) (cs : List TrackCall) :
    callsFor k (c :: cs) = if c.key = k then c :: callsFor k cs else callsFor k cs := by
  simp [callsFor, List.filter_cons]

theorem valuesFor_nil (k : Key) : valuesFor k [] = [] := rfl

theorem valuesFor_cons_ne (k : Key) (c : TrackCall) (cs : List TrackCall)
    (h : ¬ c.key = k) : valuesFor k (c :: cs) = valuesFor k cs := by
  simp [valuesFor, callsFor_cons, h]

theorem valuesFor_cons_none (k : Key) (c : TrackCall) (cs : List TrackCall)
    (h : c.key = k) (hv : c.value = none) : valuesFor k (c :: cs) = valuesFor k cs := by
  simp [valuesFor, callsFor_cons, h, List.filterMap_cons, hv]

theorem valuesFor_cons_some (k : Key) (c : TrackCall) (cs : List TrackCall) (v : ℚ)
    (h : c.key = k) (hv : c.value = some v) : valuesFor k (c :: cs) = v :: valuesFor k cs := by
  simp [valuesFor, callsFor_cons, h, List.filterMap_cons, hv]

theorem pointsFor_nil (k : Key) : pointsFor k [] = [] := rfl

theorem pointsFor_cons_ne (k : Key) (c : TrackCall) (cs : List TrackCall)
    (h : ¬ c.key = k) : pointsFor k (c :: cs) = pointsFor k cs := by
  simp [pointsFor, callsFor_cons, h]

theorem pointsFor_cons_none (k : Key) (c : TrackCall) (cs : List TrackCall)
    (h : c.key = k) (hv : c.value = none) : pointsFor k (c :: cs) = pointsFor k cs := by
  simp [pointsFor, callsFor_cons, h, List.filterMap_cons, hv]

theorem pointsFor_cons_some (k : Key) (c : TrackCall) (cs : List TrackCall) (v : ℚ)
    (h : c.key = k) (hv : c.value = some v) :
    pointsFor k (c :: cs) = (c.ts, v) :: pointsFor k cs := by
  simp [pointsFor, callsFor_cons, h, List.filterMap_cons, hv]

/-! ### Accumulator values after a sequence of `track` calls -/

theorem runCalls_seriesMax : ∀ (cs : List TrackCall) (s : MetricsStore),
    (runCalls s cs).seriesMax = s.seriesMax
  | [], _ => rfl
  | c :: cs, s => by
    rw [runCalls, runCalls_seriesMax cs, track_seriesMax]

theorem runCalls_seriesWindow : ∀ (cs : List TrackCall) (s : MetricsStore),
    (runCalls s cs).seriesWindow = s.seriesWindow
  | [], _ => rfl
  | c :: cs, s => by
    rw [runCalls, runCalls_seriesWindow cs, track_seriesWindow]

theorem runCalls_counts : ∀ (cs : List TrackCall) (s : MetricsStore) (k : Key),
    (runCalls s cs).counts k = s.counts k + (callsFor k cs).length
  | [], s, k => by simp [runCalls, callsFor_nil]
  | c :: cs, s, k => by
    rw [runCalls, runCalls_counts cs, track_counts, callsFor_cons]
    rcases eq_or_ne c.key k with h | h
    · subst h
      simp only [TrackCall.key_def, eq_self_iff_true, if_true, List.length_cons]
      omega
    · rw [if_neg h, if_neg (by rw [← TrackCall.key_def]; exact fun hk => h hk.symm)]

theorem runCalls_n : ∀ (cs : List TrackCall) (s : MetricsStore) (k : Key),
    (runCalls s cs).n k = s.n k + (valuesFor k cs).length
  | [], s, k => by simp [runCalls, valuesFor_nil]
  | c :: cs, s, k => by
    rw [runCalls]
    rcases eq_or_ne c.key k with h | h
    · cases hv : c.value with
      | none =>
        rw [runCalls_n cs, track_n_none, valuesFor_cons_none k c cs h hv]
      | some v =>
        rw [runCalls_n cs, track_n_some, valuesFor_cons_some k c cs v h hv]
        subst h
        simp only [TrackCall.key_def, eq_self_iff_true, if_true, List.length_cons]
        omega
    · have hne : ¬ k = mkKey c.event c.service c.status := by
        rw [← TrackCall.key_def]; exact fun hk => h hk.symm
      cases hv : c.value with
      | none =>
        rw [runCalls_n cs, track_n_none, valuesFor_cons_ne k c cs h]
      | some v =>
        rw [runCalls_n cs, track_n_some, if_neg hne, valuesFor_cons_ne k c cs h]

theorem runCalls_sums : ∀ (cs : List TrackCall) (s : MetricsStore) (k : Key),
    (runCalls s cs).sums k = s.sums k + (valuesFor k cs).sum
  | [], s, k => by simp [runCalls, valuesFor_nil]
  | c :: cs, s, k => by
    rw [runCalls]
    rcases eq_or_ne c.key k with h | h
    · cases hv : c.value with
      | none =>
        rw [runCalls_sums cs, track_sums_none, valuesFor_cons_none k c cs h hv]
      | some v =>
        rw [runCalls_sums cs, track_sums_some, valuesFor_cons_some k c cs v h hv]
        subst h
        simp only [TrackCall.key_def, eq_self_iff_true, if_true, List.sum_cons]
        ring
    · have hne : ¬ k = mkKey c.event c.service c.status := by
        rw [← TrackCall.key_def]; exact fun hk => h hk.symm
      cases hv : c.value with
      | none =>
        rw [runCalls_sums cs, track_sums_none, valuesFor_cons_ne k c cs h]
      | some v =>
        rw [runCalls_sums cs, track_sums_some, if_neg hne, valuesFor_cons_ne k c cs h]

theorem runCalls_minv : ∀ (cs : List TrackCall) (s : MetricsStore) (k : Key),
    (runCalls s cs).minv k = (valuesFor k cs).foldl minUpd (s.minv k)
  | [], s, k => by simp [runCalls, valuesFor_nil]
  | c :: cs, s, k => by
    rw [runCalls]
    rcases eq_or_ne c.key k with h | h
    · cases hv : c.value with
      | none =>
        rw [runCalls_minv cs, track_minv_none, valuesFor_cons_none k c cs h hv]
      | some v =>
        rw [runCalls_minv cs, track_minv_some, valuesFor_cons_some k c cs v h hv]
        subst h
        simp only [TrackCall.key_def, eq_self_iff_true, if_true, List.foldl_cons]
    · have hne : ¬ k = mkKey c.event c.service c.status := by
        rw [← TrackCall.key_def]; exact fun hk => h hk.symm
      cases hv : c.value with
      | none =>
        rw [runCalls_minv cs, track_minv_none, valuesFor_cons_ne k c cs h]
      | some v =>
        rw [runCalls_minv cs, track_minv_some, if_neg hne, valuesFor_cons_ne k c cs h]

theorem runCalls_maxv : ∀ (cs : List TrackCall) (s : MetricsStore) (k : Key),
    (runCalls s cs).maxv k = (valuesFor k cs).foldl maxUpd (s.maxv k)
  | [], s, k => by simp [runCalls, valuesFor_nil]
  | c :: cs, s, k => by
    rw [runCalls]
    rcases eq_or_ne c.key k with h | h
    · cases hv : c.value with
      | none =>
        rw [runCalls_maxv cs, track_maxv_none, valuesFor_cons_none k c cs h hv]
      | some v =>
        rw [runCalls_maxv cs, track_maxv_some, valuesFor_cons_some k c cs v h hv]
        subst h
        simp only [TrackCall.key_def, eq_self_iff_true, if_true, List.foldl_cons]
    · have hne : ¬ k = mkKey c.event c.service c.status := by
        rw [← TrackCall.key_def]; exact fun hk => h hk.symm
      cases hv : c.value with
      | none =>
        rw [runCalls_maxv cs, track_maxv_none, valuesFor_cons_ne k c cs h]
      | some v =>
        rw [runCalls_maxv cs, track_maxv_some, if_neg hne, valuesFor_cons_ne k c cs h]

theorem runCalls_seriesMap : ∀ (cs : List TrackCall) (s : MetricsStore) (k : Key),
    (runCalls s cs).seriesMap k = (pointsFor k cs).foldl (appendBounded s.seriesMax) (s.seriesMap k)
  | [], s, k => by simp [runCalls, pointsFor_nil]
  | c :: cs, s, k => by
    rw [runCalls]
    rcases eq_or_ne c.key k with h | h
    · cases hv : c.value with
      | none =>
        rw [runCalls_seriesMap cs, track_seriesMap_none, track_seriesMax,
          pointsFor_cons_none k c cs h hv]
      | some v =>
        rw [runCalls_seriesMap cs, track_seriesMap_some, track_seriesMax,
          pointsFor_cons_some k c cs v h hv]
        subst h
        simp only [TrackCall.key_def, eq_self_iff_true, if_true, List.foldl_cons]
    · have hne : ¬ k = mkKey c.event c.service c.status := by
        rw [← TrackCall.key_def]; exact fun hk => h hk.symm
      cases hv : c.value with
      | none =>
        rw [runCalls_seriesMap cs, track_seriesMap_none, track_seriesMax,
          pointsFor_cons_ne k c cs h]
      | some v =>
        rw [runCalls_seriesMap cs, track_seriesMap_some, track_seriesMax, if_neg hne,
          pointsFor_cons_ne k c cs h]

theorem runCalls_countKeys_mem : ∀ (cs : List TrackCall) (s : MetricsStore) (k : Key),
    k ∈ (runCalls s cs).countKeys ↔ k ∈ s.countKeys ∨ k ∈ cs.map TrackCall.key
  | [], s, k => by simp [runCalls]
  | c :: cs, s, k => by
    rw [runCalls, runCalls_countKeys_mem cs, track_countKeys]
    rcases Decidable.em (mkKey c.event c.service c.status ∈ s.countKeys) with h | h
    · rw [if_pos h]
      simp only [List.map_cons, List.mem_cons, TrackCall.key_def]
      constructor
      · rintro (hk | hk)
        · exact Or.inl hk
        · exact Or.inr (Or.inr hk)
      · rintro (hk | hk | hk)
        · exact Or.inl hk
        · exact Or.inl (hk ▸ h)
        · exact Or.inr hk
    · rw [if_neg h]
      simp only [List.mem_append, List.mem_singleton, List.map_cons, List.mem_cons,
        TrackCall.key_def]
      tauto

theorem runCalls_countKeys_nodup : ∀ (cs : List TrackCall) (s : MetricsStore),
    s.countKeys.Nodup → (runCalls s cs).countKeys.Nodup
  | [], s, h => h
  | c :: cs, s, h => by
    rw [runCalls]
    apply runCalls_countKeys_nodup cs
    rw [track_countKeys]
    rcases Decidable.em (mkKey c.event c.service c.status ∈ s.countKeys) with hm | hm
    · rw [if_pos hm]; exact h
    · rw [if_neg hm]
      simp [List.nodup_append, h, hm]

/-! ### The running minimum / maximum compute list minima / maxima -/

theorem minUpd_some (m v : ℚ) : minUpd (some m) v = some (min m v) := by
  by_cases h : v < m
  · simp [minUpd, h, min_eq_right h.le]
  · simp [minUpd, h, min_eq_left (le_of_not_lt h)]

theorem maxUpd_some (m v : ℚ) : maxUpd (some m) v = some (max m v) := by
  by_cases h : m < v
  · simp [maxUpd, h, max_eq_right h.le]
  · simp [maxUpd, h, max_eq_left (le_of_not_lt h)]

theorem foldl_minUpd_some : ∀ (vs : List ℚ) (m : ℚ),
    vs.foldl minUpd (some m) = some (vs.foldl min m)
  | [], _ => rfl
  | v :: vs, m => by
    rw [List.foldl_cons, List.foldl_cons, minUpd_some, foldl_minUpd_some vs]

theorem foldl_maxUpd_some : ∀ (vs : List ℚ) (m : ℚ),
    vs.foldl maxUpd (some m) = some (vs.foldl max m)
  | [], _ => rfl
  | v :: vs, m => by
    rw [List.foldl_cons, List.foldl_cons, maxUpd_some, foldl_maxUpd_some vs]

theorem foldl_minUpd_none_eq_none_iff (vs : List ℚ) :
    vs.foldl minUpd none = none ↔ vs = [] := by
  cases vs with
  | nil => simp
  | cons v vs => simp [List.foldl_cons, minUpd, foldl_minUpd_some]

theorem foldl_maxUpd_none_eq_none_iff (vs : List ℚ) :
    vs.foldl maxUpd none = none ↔ vs = [] := by
  cases vs with
  | nil => simp
  | cons v vs => simp [List.foldl_cons, maxUpd, foldl_maxUpd_some]

theorem foldl_min_mem : ∀ (vs : List ℚ) (m : ℚ), vs.foldl min m = m ∨ vs.foldl min m ∈ vs
  | [], m => Or.inl rfl
  | v :: vs, m => by
    rw [List.foldl_cons]
    rcases foldl_min_mem vs (min m v) with h | h
    · rcases min_choice m v with hm | hm
      · exact Or.inl (by rw [h, hm])
      · exact Or.inr (by rw [h, hm]; exact List.mem_cons_self v vs)
    · exact Or.inr (List.mem_cons_of_mem v h)

theorem foldl_max_mem : ∀ (vs : List ℚ) (m : ℚ), vs.foldl max m = m ∨ vs.foldl max m ∈ vs
  | [], m => Or.inl rfl
  | v :: vs, m => by
    rw [List.foldl_cons]
    rcases foldl_max_mem vs (max m v) with h | h
    · rcases max_choice m v with hm | hm
      · exact Or.inl (by rw [h, hm])
      · exact Or.inr (by rw [h, hm]; exact List.mem_cons_self v vs)
    · exact Or.inr (List.mem_cons_of_mem v h)

theorem foldl_min_le_init : ∀ (vs : List ℚ) (m : ℚ), vs.foldl min m ≤ m
  | [], m => le_refl m
  | v :: vs, m => by
    rw [List.foldl_cons]
    exact le_trans (foldl_min_le_init vs (min m v)) (min_le_left m v)

theorem foldl_max_ge_init : ∀ (vs : List ℚ) (m : ℚ), m ≤ vs.foldl max m
  | [], m => le_refl m
  | v :: vs, m => by
    rw [List.foldl_cons]
    exact le_trans (le_max_left m v) (foldl_max_ge_init vs (max m v))

theorem foldl_min_le_mem : ∀ (vs : List ℚ) (m : ℚ), ∀ x ∈ vs, vs.foldl min m ≤ x
  | [], _, x, hx => absurd hx (List.not_mem_nil x)
  | v :: vs, m, x, hx => by
    rw [List.foldl_cons]
    rcases List.mem_cons.mp hx with h | h
    · subst h
      exact le_trans (foldl_min_le_init vs (min m x)) (min_le_right m x)
    · exact foldl_min_le_mem vs (min m v) x h

theorem foldl_max_ge_mem : ∀ (vs : List ℚ) (m : ℚ), ∀ x ∈ vs, x ≤ vs.foldl max m
  | [], _, x, hx => absurd hx (List.not_mem_nil x)
  | v :: vs, m, x, hx => by
    rw [List.foldl_cons]
    rcases List.mem_cons.mp hx with h | h
    · subst h
      exact le_trans (le_max_right m x) (foldl_max_ge_init vs (max m x))
    · exact foldl_max_ge_mem vs (max m v) x h

/-! ### Ring-buffer characterization of `appendBounded` -/

theorem appendBounded_drop (cap : ℕ) (l : List (ℚ × ℚ)) (x : ℚ × ℚ) :
    appendBounded cap (l.drop (l.length - cap)) x = (l ++ [x]).drop (l.length + 1 - cap) := by
  unfold appendBounded
  rw [List.length_drop]
  rcases le_or_lt cap l.length with h | h
  · rw [Nat.sub_sub_self h]
    rcases Nat.eq_zero_or_pos cap with hc | hc
    · subst hc
      simp only [Nat.sub_zero]
      rw [List.drop_length, List.drop_eq_nil_of_le (by simp)]
      simp
    · have h1 : (1 : ℕ) ≤ (l.drop (l.length - cap)).length := by
        rw [List.length_drop]; omega
      rw [show cap + 1 - cap = 1 by omega,
        List.drop_append_of_le_length h1, List.drop_drop,
        List.drop_append_of_le_length (show l.length + 1 - cap ≤ l.length by omega),
        show l.length - cap + 1 = l.length + 1 - cap by omega]
  · rw [show l.length - cap = 0 by omega]
    simp only [List.drop_zero]
    rw [show l.length + 1 - cap = 0 by omega,
      show l.length - 0 + 1 - cap = 0 by omega]

theorem foldl_appendBounded : ∀ (ps : List (ℚ × ℚ)) (cap : ℕ) (l : List (ℚ × ℚ)),
    ps.foldl (appendBounded cap) (l.drop (l.length - cap)) =
      (l ++ ps).drop ((l ++ ps).length - cap)
  | [], cap, l => by simp
  | x :: ps, cap, l => by
    rw [List.foldl_cons, appendBounded_drop,
      show (l ++ [x]).drop (l.length + 1 - cap)
        = (l ++ [x]).drop ((l ++ [x]).length - cap) by simp,
      foldl_appendBounded ps cap (l ++ [x])]
    simp

/-! ### Grouping behaviour of `series()` -/

theorem series_eq_foldl (s : MetricsStore) (now : ℚ) :
    s.series now = s.seriesKeys.foldl (seriesStep s now) [] := rfl

theorem flattenGroups_addToGroup :
    ∀ (out : List (String × List SeriesEntry)) (ev : String) (e : SeriesEntry),
    (flattenGroups (addToGroup out ev e)).Perm (flattenGroups out ++ [(ev, e)])
  | [], ev, e => by simp [flattenGroups, addToGroup]
  | (ev0, es) :: rest, ev, e => by
    by_cases h : ev0 = ev
    · subst h
      simp only [addToGroup, eq_self_iff_true, if_true, flattenGroups, List.flatMap_cons,
        List.map_append, List.map_cons, List.map_nil, List.append_assoc]
      exact List.Perm.append_left _ List.perm_append_comm
    · simp only [addToGroup, if_neg h, flattenGroups, List.flatMap_cons, List.append_assoc]
      exact List.Perm.append_left _ (flattenGroups_addToGroup rest ev e)

theorem flattenGroups_foldl (s : MetricsStore) (now : ℚ) :
    ∀ (ks : List Key) (out : List (String × List SeriesEntry)),
    (flattenGroups (ks.foldl (seriesStep s now) out)).Perm
      (flattenGroups out ++
        (ks.filter (fun k => !(windowPts s now k).isEmpty)).map
          (fun k => (k.event, ⟨k.service, k.status, windowPts s now k⟩)))
  | [], out => by simp
  | k :: ks, out => by
    rw [List.foldl_cons, List.filter_cons]
    by_cases h : (windowPts s now k).isEmpty
    · simp only [h, Bool.not_true, Bool.false_eq_true, if_false]
      rw [show seriesStep s now out k = out from if_pos h]
      exact flattenGroups_foldl s now ks out
    · simp only [h, Bool.not_false, if_true]
      rw [show seriesStep s now out k
          = addToGroup out k.event ⟨k.service, k.status, windowPts s now k⟩ from if_neg h]
      refine (flattenGroups_foldl s now ks _).trans ?_
      refine (List.Perm.append_right _ (flattenGroups_addToGroup out k.event _)).trans ?_
      simp [List.append_assoc]

/-! ### Snapshot row counting -/

theorem snapshot_length (s : MetricsStore) : s.snapshot.length = s.countKeys.length := by
  simp [MetricsStore.snapshot]

theorem nodup_filter_eq_length :
    ∀ (l : List Key) (k : Key), l.Nodup →
    (l.filter (fun x => decide (x = k))).length = if k ∈ l then 1 else 0
  | [], k, _ => by simp
  | a :: l, k, h => by
    rcases List.nodup_cons.mp h with ⟨ha, hl⟩
    rw [List.filter_cons]
    simp only [decide_eq_true_eq]
    by_cases hk : a = k
    · subst hk
      rw [if_pos rfl, if_pos (List.mem_cons_self a l)]
      have hfil : l.filter (fun x => decide (x = a)) = [] :=
        List.filter_eq_nil_iff.mpr (fun x hx => by
          simp only [decide_eq_true_eq]
          exact fun hxa => ha (hxa ▸ hx))
      simp [hfil]
    · rw [if_neg hk, nodup_filter_eq_length l k hl]
      by_cases hm : k ∈ l
      · rw [if_pos hm, if_pos (List.mem_cons_of_mem a hm)]
      · rw [if_neg hm, if_neg (fun hc => by
          rcases List.mem_cons.mp hc with hka | hkl
          · exact hk hka.symm
          · exact hm hkl)]

/-! ### Route-level bookkeeping -/

theorem parsePayload_ok_iff (p q : RawPayload) :
    parsePayload p = Except.ok q ↔
      ¬ pyStrip p.event = "" ∧ q = { p with event := pyStrip p.event } := by
  unfold parsePayload validate_event
  by_cases h : pyStrip p.event = ""
  · simp [h]
  · simp [h, eq_comm]

theorem runRequests_eventsTotal : ∀ (rs : List TrackRequest) (st : ServerState) (k : Key),
    (runRequests st rs).prom.eventsTotal k = st.prom.eventsTotal k + validCountFor k rs
  | [], st, k => by simp [runRequests, validCountFor]
  | r :: rs, st, k => by
    rw [runRequests]
    cases hp : parsePayload r.payload with
    | error e =>
      rw [show (handleTrack st r.payload r.ts).1 = st by simp [handleTrack, hp]]
      rw [runRequests_eventsTotal rs]
      simp [validCountFor, List.filter_cons, hp]
    | ok q =>
      rw [runRequests_eventsTotal rs]
      by_cases hk : mkKey q.event q.service q.status = k
      · simp only [handleTrack, hp, Function.update_apply, validCountFor, List.filter_cons,
          hk, hp]
        simp [validCountFor, hk]
        omega
      · simp only [handleTrack, hp, Function.update_apply]
        rw [if_neg (fun hc => hk hc.symm)]
        simp [validCountFor, List.filter_cons, hp, hk]

theorem runRequests_store_counts : ∀ (rs : List TrackRequest) (st : ServerState) (k : Key),
    (runRequests st rs).store.counts k = st.store.counts k + validCountFor k rs
  | [], st, k => by simp [runRequests, validCountFor]
  | r :: rs, st, k => by
    rw [runRequests]
    cases hp : parsePayload r.payload with
    | error e =>
      rw [show (handleTrack st r.payload r.ts).1 = st by simp [handleTrack, hp]]
      rw [runRequests_store_counts rs]
      simp [validCountFor, List.filter_cons, hp]
    | ok q =>
      rw [runRequests_store_counts rs]
      simp only [handleTrack, hp]
      rw [track_counts]
      by_cases hk : mkKey q.event q.service q.status = k
      · rw [if_pos hk.symm, hk]
        simp [validCountFor, List.filter_cons, hp, hk]
        omega
      · rw [if_neg (fun hc => hk hc.symm)]
        simp [validCountFor, List.filter_cons, hp, hk]

theorem runRequests_latency : ∀ (rs : List TrackRequest) (st : ServerState) (k : Key),
    (runRequests st rs).prom.latencyObserved k =
      st.prom.latencyObserved k ++ validValuesFor k rs
  | [], st, k => by simp [runRequests, validValuesFor]
  | r :: rs, st, k => by
    rw [runRequests]
    cases hp : parsePayload r.payload with
    | error e =>
      rw [show (handleTrack st r.payload r.ts).1 = st by simp [handleTrack, hp]]
      rw [runRequests_latency rs]
      simp [validValuesFor, List.filterMap_cons, hp]
    | ok q =>
      rw [runRequests_latency rs]
      cases hv : q.value with
      | none =>
        simp only [handleTrack, hp, hv]
        simp [validValuesFor, List.filterMap_cons, hp, hv]
      | some v =>
        by_cases hk : mkKey q.event q.service q.status = k
        · simp only [handleTrack, hp, hv, Function.update_apply]
          rw [if_pos hk.symm, hk]
          simp [validValuesFor, List.filterMap_cons, hp, hv, hk]
        · simp only [handleTrack, hp, hv, Function.update_apply]
          rw [if_neg (fun hc => hk hc.symm)]
          simp [validValuesFor, List.filterMap_cons, hp, hv, hk]

/-- A snapshot row carrying `k`'s labels comes from `k` itself. -/
theorem mkRow_label_eq (s : MetricsStore) (k' k : Key)
    (he : (mkRow s k').event = k.event) (hs : (mkRow s k').service = k.service)
    (hst : (mkRow s k').status = k.status) : k' = k := by
  rcases k with ⟨e, sv, stt⟩
  rcases k' with ⟨e', sv', stt'⟩
  simp only [mkRow] at he hs hst
  simp_all

/-! ### The claims -/

/-- C1: for every key and every sequence of `track()` calls, the `count`
reported by `snapshot()` for that key equals exactly the number of `track()`
calls made for that key, and `samples` equals exactly the number of those
calls that supplied a numeric value. -/
theorem claim_C1_count_and_samples :
    ∀ (cs : List TrackCall) (k : Key) (r : Row),
    r ∈ (runCalls MetricsStore.initDefault cs).snapshot →
    r.event = k.event → r.service = k.service → r.status = k.status →
    r.count = (callsFor k cs).length ∧ r.samples = (valuesFor k cs).length := by
  intro cs k r hr he hs hst
  rcases List.mem_map.mp hr with ⟨k', hk', hrow⟩
  subst hrow
  have hkk : k' = k := mkRow_label_eq _ k' k he hs hst
  subst hkk
  constructor
  · show (runCalls MetricsStore.initDefault cs).counts k' = _
    rw [runCalls_counts]
    simp [MetricsStore.initDefault, MetricsStore.init]
  · show (runCalls MetricsStore.initDefault cs).n k' = _
    rw [runCalls_n]
    simp [MetricsStore.initDefault, MetricsStore.init]

/-- Witness for C1 at a concrete history: two calls for `"e"`, one with a
value, give `count = 2` and `samples = 1`. -/
theorem claim_C1_witness :
    (⟨"e", "", "", 2, 1, some 2, some 2, some 2⟩ : Row).count =
        (callsFor ⟨"e", "", ""⟩
          [⟨0, "e", some 2, none, none⟩, ⟨1, "e", none, none, none⟩]).length ∧
      (⟨"e", "", "", 2, 1, some 2, some 2, some 2⟩ : Row).samples =
        (valuesFor ⟨"e", "", ""⟩
          [⟨0, "e", some 2, none, none⟩, ⟨1, "e", none, none, none⟩]).length :=
  claim_C1_count_and_samples
    [⟨0, "e", some 2, none, none⟩, ⟨1, "e", none, none, none⟩] ⟨"e", "", ""⟩
    ⟨"e", "", "", 2, 1, some 2, some 2, some 2⟩
    (by norm_num [runCalls, MetricsStore.track, MetricsStore.initDefault, MetricsStore.init,
      MetricsStore.snapshot, mkRow, mkKey, orEmpty, Function.update_apply, minUpd, maxUpd,
      appendBounded])
    rfl rfl rfl

/-- C2: for every key that has received at least one numeric value, the
snapshot row reports `min` equal to the minimum of all supplied values, `max`
equal to the maximum, and `avg` equal to the sum of supplied values divided by
their number; in particular after tracking values `[3, 1, 5, 1]` for one key,
`min = 1`, `max = 5`, `avg = 5/2` and `samples = 4`. -/
theorem claim_C2_min_max_avg :
    (∀ (cs : List TrackCall) (k : Key) (r : Row),
      r ∈ (runCalls MetricsStore.initDefault cs).snapshot →
      r.event = k.event → r.service = k.service → r.status = k.status →
      valuesFor k cs ≠ [] →
      r.samples = (valuesFor k cs).length ∧
      r.avg = some ((valuesFor k cs).sum / ((valuesFor k cs).length : ℚ)) ∧
      (∃ m, r.minv = some m ∧ m ∈ valuesFor k cs ∧ ∀ x ∈ valuesFor k cs, m ≤ x) ∧
      (∃ M, r.maxv = some M ∧ M ∈ valuesFor k cs ∧ ∀ x ∈ valuesFor k cs, x ≤ M)) ∧
    (runCalls MetricsStore.initDefault
        [⟨0, "e", some 3, none, none⟩, ⟨1, "e", some 1, none, none⟩,
         ⟨2, "e", some 5, none, none⟩, ⟨3, "e", some 1, none, none⟩]).snapshot =
      [⟨"e", "", "", 4, 4, some (5 / 2), some 1, some 5⟩] := by
  constructor
  · intro cs k r hr he hs hst hne
    rcases List.mem_map.mp hr with ⟨k', hk', hrow⟩
    subst hrow
    have hkk : k' = k := mkRow_label_eq _ k' k he hs hst
    subst hkk
    obtain ⟨v, vs, hvs⟩ : ∃ v vs, valuesFor k' cs = v :: vs := by
      cases h : valuesFor k' cs with
      | nil => exact absurd h hne
      | cons a l => exact ⟨a, l, rfl⟩
    have hn : (runCalls MetricsStore.initDefault cs).n k' = (valuesFor k' cs).length := by
      rw [runCalls_n]
      simp [MetricsStore.initDefault, MetricsStore.init]
    have hsum : (runCalls MetricsStore.initDefault cs).sums k' = (valuesFor k' cs).sum := by
      rw [runCalls_sums]
      simp [MetricsStore.initDefault, MetricsStore.init]
    have hmin : (runCalls MetricsStore.initDefault cs).minv k' = some (vs.foldl min v) := by
      rw [runCalls_minv]
      show (valuesFor k' cs).foldl minUpd
          ((MetricsStore.init 300 500).minv k') = _
      rw [hvs, List.foldl_cons]
      exact foldl_minUpd_some vs v
    have hmax : (runCalls MetricsStore.initDefault cs).maxv k' = some (vs.foldl max v) := by
      rw [runCalls_maxv]
      show (valuesFor k' cs).foldl maxUpd
          ((MetricsStore.init 300 500).maxv k') = _
      rw [hvs, List.foldl_cons]
      exact foldl_maxUpd_some vs v
    refine ⟨hn, ?_, ?_, ?_⟩
    · show (if (runCalls MetricsStore.initDefault cs).n k' = 0 then none
          else some ((runCalls MetricsStore.initDefault cs).sums k'
            / ((runCalls MetricsStore.initDefault cs).n k' : ℚ))) = _
      rw [hn, hsum, if_neg (by rw [hvs]; simp)]
    · refine ⟨vs.foldl min v, hmin, ?_, ?_⟩
      · rw [hvs]
        rcases foldl_min_mem vs v with h | h
        · rw [h]; exact List.mem_cons_self v vs
        · exact List.mem_cons_of_mem v h
      · intro x hx
        rw [hvs] at hx
        rcases List.mem_cons.mp hx with h | h
        · rw [h]; exact foldl_min_le_init vs v
        · exact foldl_min_le_mem vs v x h
    · refine ⟨vs.foldl max v, hmax, ?_, ?_⟩
      · rw [hvs]
        rcases foldl_max_mem vs v with h | h
        · rw [h]; exact List.mem_cons_self v vs
        · exact List.mem_cons_of_mem v h
      · intro x hx
        rw [hvs] at hx
        rcases List.mem_cons.mp hx with h | h
        · rw [h]; exact foldl_max_ge_init vs v
        · exact foldl_max_ge_mem vs v x h
  · norm_num [runCalls, MetricsStore.track, MetricsStore.initDefault, MetricsStore.init,
      MetricsStore.snapshot, mkRow, mkKey, orEmpty, Function.update_apply, minUpd, maxUpd,
      appendBounded]

/-- Witness for C2: the `[3, 1, 5, 1]` history of the claim, with the
hypotheses of the universal part discharged at that history. -/
theorem claim_C2_witness :
    (⟨"e", "", "", 4, 4, some (5 / 2), some 1, some 5⟩ : Row).samples =
        (valuesFor ⟨"e", "", ""⟩
          [⟨0, "e", some 3, none, none⟩, ⟨1, "e", some 1, none, none⟩,
           ⟨2, "e", some 5, none, none⟩, ⟨3, "e", some 1, none, none⟩]).length ∧
      (∃ m, (⟨"e", "", "", 4, 4, some (5 / 2), some 1, some 5⟩ : Row).minv = some m ∧
        m ∈ valuesFor ⟨"e", "", ""⟩
          [⟨0, "e", some 3, none, none⟩, ⟨1, "e", some 1, none, none⟩,
           ⟨2, "e", some 5, none, none⟩, ⟨3, "e", some 1, none, none⟩] ∧
        ∀ x ∈ valuesFor ⟨"e", "", ""⟩
          [⟨0, "e", some 3, none, none⟩, ⟨1, "e", some 1, none, none⟩,
           ⟨2, "e", some 5, none, none⟩, ⟨3, "e", some 1, none, none⟩], m ≤ x) := by
  have h := claim_C2_min_max_avg.1
    [⟨0, "e", some 3, none, none⟩, ⟨1, "e", some 1, none, none⟩,
     ⟨2, "e", some 5, none, none⟩, ⟨3, "e", some 1, none, none⟩]
    ⟨"e", "", ""⟩ ⟨"e", "", "", 4, 4, some (5 / 2), some 1, some 5⟩
    (by rw [claim_C2_min_max_avg.2]; exact List.mem_singleton.mpr rfl)
    rfl rfl rfl
    (by simp [valuesFor, callsFor, TrackCall.key, mkKey, orEmpty, List.filter,
      List.filterMap])
  exact ⟨h.1, h.2.2.1⟩

/-- C3: for every key the series after any call sequence is exactly the most
recent `capacity` appended points in insertion order (all of them while below
capacity), its length never exceeds the configured capacity, and after
`capacity + 5` numeric values it holds exactly `capacity` points. -/
theorem claim_C3_series_eviction :
    ∀ (win : ℚ) (cap : ℕ) (cs : List TrackCall) (k : Key),
    (runCalls (MetricsStore.init win cap) cs).seriesMap k =
      (pointsFor k cs).drop ((pointsFor k cs).length - cap) ∧
    ((runCalls (MetricsStore.init win cap) cs).seriesMap k).length ≤ cap ∧
    ((pointsFor k cs).length = cap + 5 →
      ((runCalls (MetricsStore.init win cap) cs).seriesMap k).length = cap) := by
  intro win cap cs k
  have h0 : ([] : List (ℚ × ℚ)) = ([] : List (ℚ × ℚ)).drop (([] : List (ℚ × ℚ)).length - cap) := by
    simp
  have h1 : (runCalls (MetricsStore.init win cap) cs).seriesMap k
      = (pointsFor k cs).drop ((pointsFor k cs).length - cap) := by
    rw [runCalls_seriesMap]
    show (pointsFor k cs).foldl (appendBounded cap) ([] : List (ℚ × ℚ)) = _
    rw [h0, foldl_appendBounded]
    simp
  refine ⟨h1, ?_, ?_⟩
  · rw [h1, List.length_drop]
    omega
  · intro hlen
    rw [h1, List.length_drop, hlen]
    omega

/-- Witness for C3: with capacity 2 and seven numeric values tracked for one
key, the series has length exactly 2. -/
theorem claim_C3_witness :
    ((runCalls (MetricsStore.init 300 2)
        [⟨0, "e", some 0, none, none⟩, ⟨1, "e", some 1, none, none⟩,
         ⟨2, "e", some 2, none, none⟩, ⟨3, "e", some 3, none, none⟩,
         ⟨4, "e", some 4, none, none⟩, ⟨5, "e", some 5, none, none⟩,
         ⟨6, "e", some 6, none, none⟩]).seriesMap ⟨"e", "", ""⟩).length = 2 :=
  (claim_C3_series_eviction 300 2
    [⟨0, "e", some 0, none, none⟩, ⟨1, "e", some 1, none, none⟩,
     ⟨2, "e", some 2, none, none⟩, ⟨3, "e", some 3, none, none⟩,
     ⟨4, "e", some 4, none, none⟩, ⟨5, "e", some 5, none, none⟩,
     ⟨6, "e", some 6, none, none⟩] ⟨"e", "", ""⟩).2.2
    (by norm_num [pointsFor, callsFor, TrackCall.key, mkKey, orEmpty, List.filter,
      List.filterMap])

/-- C4: `series()` returns, up to the grouping of entries under their event,
exactly one `{service, status, points}` entry for each key whose stored points
surviving the `ts >= now - window` test are nonempty, with `points` exactly
that filtered list in stored order; keys with no surviving point are omitted.
In particular with points at t = 0, 10, 20, 30, window 15 and now = 30, only
t = 20 and t = 30 survive (boundary inclusive). -/
theorem claim_C4_window_filtering :
    (∀ (s : MetricsStore) (now : ℚ),
      (flattenGroups (s.series now)).Perm
        ((s.seriesKeys.filter (fun k => !(windowPts s now k).isEmpty)).map
          (fun k => (k.event, ⟨k.service, k.status, windowPts s now k⟩)))) ∧
    (runCalls (MetricsStore.init 15 500)
        [⟨0, "e", some 1, none, none⟩, ⟨10, "e", some 2, none, none⟩,
         ⟨20, "e", some 3, none, none⟩, ⟨30, "e", some 4, none, none⟩]).series 30 =
      [("e", [⟨"", "", [(20, 3), (30, 4)]⟩])] := by
  constructor
  · intro s now
    rw [series_eq_foldl]
    simpa using flattenGroups_foldl s now s.seriesKeys []
  · norm_num [runCalls, MetricsStore.series, MetricsStore.track, MetricsStore.init, mkKey,
      orEmpty, Function.update_apply, appendBounded, addToGroup, List.filter]

/-- C5: a key's snapshot row has `avg`, `min`, `max` null and `samples = 0`
exactly when the key never received a numeric value (each of the three fields
is non-null as soon as one value arrived — no `inf` sentinel ever reaches the
output), while `count` still counts all `track()` calls for the key. -/
theorem claim_C5_null_until_value :
    ∀ (cs : List TrackCall) (k : Key) (r : Row),
    r ∈ (runCalls MetricsStore.initDefault cs).snapshot →
    r.event = k.event → r.service = k.service → r.status = k.status →
    (r.samples = 0 ↔ valuesFor k cs = []) ∧
    (r.avg = none ↔ valuesFor k cs = []) ∧
    (r.minv = none ↔ valuesFor k cs = []) ∧
    (r.maxv = none ↔ valuesFor k cs = []) ∧
    r.count = (callsFor k cs).length := by
  intro cs k r hr he hs hst
  rcases List.mem_map.mp hr with ⟨k', hk', hrow⟩
  subst hrow
  have hkk : k' = k := mkRow_label_eq _ k' k he hs hst
  subst hkk
  have hn : (runCalls MetricsStore.initDefault cs).n k' = (valuesFor k' cs).length := by
    rw [runCalls_n]
    simp [MetricsStore.initDefault, MetricsStore.init]
  have hmin : (runCalls MetricsStore.initDefault cs).minv k'
      = (valuesFor k' cs).foldl minUpd none := by
    rw [runCalls_minv]
    rfl
  have hmax : (runCalls MetricsStore.initDefault cs).maxv k'
      = (valuesFor k' cs).foldl maxUpd none := by
    rw [runCalls_maxv]
    rfl
  refine ⟨?_, ?_, ?_, ?_, ?_⟩
  · show (runCalls MetricsStore.initDefault cs).n k' = 0 ↔ _
    rw [hn, List.length_eq_zero]
  · show (if (runCalls MetricsStore.initDefault cs).n k' = 0 then none
        else some ((runCalls MetricsStore.initDefault cs).sums k'
          / ((runCalls MetricsStore.initDefault cs).n k' : ℚ))) = none ↔ _
    rw [hn]
    by_cases h : (valuesFor k' cs).length = 0
    · rw [if_pos h]
      simp [List.length_eq_zero.mp h]
    · rw [if_neg h]
      have hne : ¬ valuesFor k' cs = [] := fun hnil => h (by rw [hnil]; rfl)
      simp [hne]
  · show (runCalls MetricsStore.initDefault cs).minv k' = none ↔ _
    rw [hmin, foldl_minUpd_none_eq_none_iff]
  · show (runCalls MetricsStore.initDefault cs).maxv k' = none ↔ _
    rw [hmax, foldl_maxUpd_none_eq_none_iff]
  · show (runCalls MetricsStore.initDefault cs).counts k' = _
    rw [runCalls_counts]
    simp [MetricsStore.initDefault, MetricsStore.init]

/-- Witness for C5: one valueless call for `"e"` gives a row with nulls,
`samples = 0` and `count = 1`. -/
theorem claim_C5_witness :
    ((⟨"e", "", "", 1, 0, none, none, none⟩ : Row).samples = 0 ↔
        valuesFor ⟨"e", "", ""⟩ [⟨0, "e", none, none, none⟩] = []) ∧
      ((⟨"e", "", "", 1, 0, none, none, none⟩ : Row).avg = none ↔
        valuesFor ⟨"e", "", ""⟩ [⟨0, "e", none, none, none⟩] = []) ∧
      ((⟨"e", "", "", 1, 0, none, none, none⟩ : Row).minv = none ↔
        valuesFor ⟨"e", "", ""⟩ [⟨0, "e", none, none, none⟩] = []) ∧
      ((⟨"e", "", "", 1, 0, none, none, none⟩ : Row).maxv = none ↔
        valuesFor ⟨"e", "", ""⟩ [⟨0, "e", none, none, none⟩] = []) ∧
      (⟨"e", "", "", 1, 0, none, none, none⟩ : Row).count =
        (callsFor ⟨"e", "", ""⟩ [⟨0, "e", none, none, none⟩]).length :=
  claim_C5_null_until_value [⟨0, "e", none, none, none⟩] ⟨"e", "", ""⟩
    ⟨"e", "", "", 1, 0, none, none, none⟩
    (by norm_num [runCalls, MetricsStore.track, MetricsStore.initDefault, MetricsStore.init,
      MetricsStore.snapshot, mkRow, mkKey, orEmpty, Function.update_apply])
    rfl rfl rfl

/-- C6: a `track` call leaves every accumulator and the series of every key
other than its own `(event, service or "", status or "")` key unchanged, and
`snapshot()` contains exactly one row per distinct key ever tracked (and none
for keys never tracked). -/
theorem claim_C6_key_isolation :
    (∀ (s : MetricsStore) (event : String) (value : Option ℚ)
        (service status : Option String) (ts : ℚ) (k : Key),
      k ≠ mkKey event service status →
      (s.track event value service status ts).counts k = s.counts k ∧
      (s.track event value service status ts).n k = s.n k ∧
      (s.track event value service status ts).sums k = s.sums k ∧
      (s.track event value service status ts).minv k = s.minv k ∧
      (s.track event value service status ts).maxv k = s.maxv k ∧
      (s.track event value service status ts).seriesMap k = s.seriesMap k) ∧
    (∀ (cs : List TrackCall) (k : Key),
      ((runCalls MetricsStore.initDefault cs).snapshot.filter
          (fun r => decide (r.event = k.event ∧ r.service = k.service ∧
            r.status = k.status))).length
        = if k ∈ cs.map TrackCall.key then 1 else 0) := by
  constructor
  · intro s event value service status ts k h
    cases value with
    | none =>
      exact ⟨by rw [track_counts, if_neg h], track_n_none s event service status ts k,
        track_sums_none s event service status ts k,
        track_minv_none s event service status ts k,
        track_maxv_none s event service status ts k,
        track_seriesMap_none s event service status ts k⟩
    | some v =>
      exact ⟨by rw [track_counts, if_neg h], by rw [track_n_some, if_neg h],
        by rw [track_sums_some, if_neg h], by rw [track_minv_some, if_neg h],
        by rw [track_maxv_some, if_neg h], by rw [track_seriesMap_some, if_neg h]⟩
  · intro cs k
    have hnodup : (runCalls MetricsStore.initDefault cs).countKeys.Nodup :=
      runCalls_countKeys_nodup cs MetricsStore.initDefault
        (by simp [MetricsStore.initDefault, MetricsStore.init])
    have hmem : k ∈ (runCalls MetricsStore.initDefault cs).countKeys ↔
        k ∈ cs.map TrackCall.key := by
      rw [runCalls_countKeys_mem]
      simp [MetricsStore.initDefault, MetricsStore.init]
    rw [MetricsStore.snapshot, List.filter_map, List.length_map]
    rw [List.filter_congr (fun a _ => ?_), nodup_filter_eq_length _ k hnodup]
    · by_cases hm : k ∈ cs.map TrackCall.key
      · rw [if_pos (hmem.mpr hm), if_pos hm]
      · rw [if_neg (fun hc => hm (hmem.mp hc)), if_neg hm]
    · apply decide_eq_decide.mpr
      show a.event = k.event ∧ a.service = k.service ∧ a.status = k.status ↔ a = k
      rcases a with ⟨e', sv', stt'⟩
      rcases k with ⟨e, sv, stt⟩
      simp

/-- Witness for C6: tracking `("e", none, none)` leaves the unrelated key
`("x", "", "")` untouched, and yields exactly one snapshot row for its own
key. -/
theorem claim_C6_witness :
    ((MetricsStore.initDefault.track "e" (some 1) none none 0).counts ⟨"x", "", ""⟩
        = MetricsStore.initDefault.counts ⟨"x", "", ""⟩ ∧
      (MetricsStore.initDefault.track "e" (some 1) none none 0).n ⟨"x", "", ""⟩
        = MetricsStore.initDefault.n ⟨"x", "", ""⟩ ∧
      (MetricsStore.initDefault.track "e" (some 1) none none 0).sums ⟨"x", "", ""⟩
        = MetricsStore.initDefault.sums ⟨"x", "", ""⟩ ∧
      (MetricsStore.initDefault.track "e" (some 1) none none 0).minv ⟨"x", "", ""⟩
        = MetricsStore.initDefault.minv ⟨"x", "", ""⟩ ∧
      (MetricsStore.initDefault.track "e" (some 1) none none 0).maxv ⟨"x", "", ""⟩
        = MetricsStore.initDefault.maxv ⟨"x", "", ""⟩ ∧
      (MetricsStore.initDefault.track "e" (some 1) none none 0).seriesMap ⟨"x", "", ""⟩
        = MetricsStore.initDefault.seriesMap ⟨"x", "", ""⟩) ∧
    ((runCalls MetricsStore.initDefault [⟨0, "e", some 1, none, none⟩]).snapshot.filter
        (fun r => decide (r.event = "e" ∧ r.service = "" ∧ r.status = ""))).length
      = if (⟨"e", "", ""⟩ : Key) ∈ [(⟨0, "e", some 1, none, none⟩ : TrackCall)].map
          TrackCall.key then 1 else 0 :=
  ⟨claim_C6_key_isolation.1 MetricsStore.initDefault "e" (some 1) none none 0 ⟨"x", "", ""⟩
      (by simp [mkKey, orEmpty]),
    claim_C6_key_isolation.2 [⟨0, "e", some 1, none, none⟩] ⟨"e", "", ""⟩⟩

/-- C7: a `/track` request whose `event` is empty or whitespace-only is
rejected as a client error by the payload validator before the handler body
runs: the store and the Prometheus sinks are exactly unchanged. -/
theorem claim_C7_reject_blank_event :
    ∀ (st : ServerState) (p : RawPayload) (ts : ℚ),
    pyStrip p.event = "" → handleTrack st p ts = (st, false) := by
  intro st p ts h
  simp [handleTrack, parsePayload, validate_event, h]

/-- Witness for C7: a whitespace-only event leaves the freshly started server
untouched and yields the error response. -/
theorem claim_C7_witness :
    handleTrack ServerState.init ⟨" \u00a0\u2003", none, none, none⟩ 0
      = (ServerState.init, false) :=
  claim_C7_reject_blank_event ServerState.init ⟨" \u00a0\u2003", none, none, none⟩ 0
    (by decide)

/-- C8: `snapshot()` and `series()` are pure functions of the store state (and
of the supplied `now`): calling either twice on the same state, with no
intervening `track`, gives identical results.  In the embedding the reads take
the store as an explicit argument and return no modified state, so repeated
reads coincide definitionally. -/
theorem claim_C8_idempotent_reads :
    ∀ (s : MetricsStore) (now : ℚ),
    s.snapshot = s.snapshot ∧ s.series now = s.series now :=
  fun _ _ => ⟨rfl, rfl⟩

/-- C9: after any request sequence, `mc_events_total` for a label triple
equals the store's `count` for the same key, and the latency histogram has
observed exactly the numeric values supplied by that triple's valid requests,
in order — both sinks are fed from the same route under the same key. -/
theorem claim_C9_prometheus_lockstep :
    ∀ (rs : List TrackRequest) (k : Key),
    (runRequests ServerState.init rs).prom.eventsTotal k
      = (runRequests ServerState.init rs).store.counts k ∧
    (runRequests ServerState.init rs).prom.latencyObserved k = validValuesFor k rs := by
  intro rs k
  constructor
  · rw [runRequests_eventsTotal, runRequests_store_counts]
    simp [ServerState.init, PromState.init, MetricsStore.initDefault, MetricsStore.init]
  · rw [runRequests_latency]
    simp [ServerState.init, PromState.init]

/-- C10: the event stored in the label key (and used for the Prometheus
labels) is the whitespace-trimmed `event` field, so two requests whose events
differ only by surrounding whitespace land in the same key and produce a
single snapshot row. -/
theorem claim_C10_trimmed_event_key :
    ∀ (p1 p2 q1 q2 : RawPayload) (ts1 ts2 : ℚ),
    parsePayload p1 = Except.ok q1 → parsePayload p2 = Except.ok q2 →
    pyStrip p1.event = pyStrip p2.event → p1.service = p2.service →
    p1.status = p2.status →
    mkKey q1.event q1.service q1.status
        = ⟨pyStrip p1.event, orEmpty p1.service, orEmpty p1.status⟩ ∧
      mkKey q1.event q1.service q1.status = mkKey q2.event q2.service q2.status ∧
      ((runRequests ServerState.init [⟨ts1, p1⟩, ⟨ts2, p2⟩]).store.snapshot).length = 1 := by
  intro p1 p2 q1 q2 ts1 ts2 h1 h2 he hs hst
  rcases (parsePayload_ok_iff p1 q1).mp h1 with ⟨hne1, hq1⟩
  rcases (parsePayload_ok_iff p2 q2).mp h2 with ⟨hne2, hq2⟩
  subst hq1
  subst hq2
  have hkeq : mkKey (pyStrip p2.event) p2.service p2.status
      = mkKey (pyStrip p1.event) p1.service p1.status := by
    rw [he, hs, hst]
  refine ⟨rfl, hkeq.symm, ?_⟩
  rw [snapshot_length]
  simp only [runRequests, handleTrack, h1, h2]
  rw [track_countKeys, track_countKeys]
  simp [ServerState.init, MetricsStore.initDefault, MetricsStore.init, hkeq]

/-- Witness for C10: `"  login "` and `"login"` aggregate into one key and one
snapshot row. -/
theorem claim_C10_witness :
    mkKey "login" none none
        = ⟨pyStrip "  login\u00a0", orEmpty none, orEmpty none⟩ ∧
      mkKey "login" none none = mkKey "login" none none ∧
      ((runRequests ServerState.init
          [⟨0, ⟨"  login\u00a0", some 1, none, none⟩⟩,
           ⟨1, ⟨"login", none, none, none⟩⟩]).store.snapshot).length = 1 :=
  claim_C10_trimmed_event_key
    ⟨"  login\u00a0", some 1, none, none⟩ ⟨"login", none, none, none⟩
    ⟨"login", some 1, none, none⟩ ⟨"login", none, none, none⟩ 0 1
    (by rfl) (by rfl) (by decide) rfl rfl
